import Mathlib

/-!
Shallow embedding of the ext2 reader (repository `ext2-rs`) and proofs about
its specified behaviour.

The embedding follows the sources under `src/`:
`src/sector.rs` (sector-size witnesses and `Address<S>`),
`src/volume/mod.rs` (the in-memory byte volume and its `slice`),
`src/sys/superblock.rs`, `src/sys/block_group.rs`, `src/sys/inode.rs`
(on-disk records and their locators), and `src/fs/mod.rs` / `src/fs/sync.rs`
(`Ext2::new`, the inode iterators, `Inode::try_block`, `read`, and the
directory walker).

Machine integers are modelled as `Nat` / `Int` with explicit two's-complement
wrapping (`% 2 ^ 32`) at the places where the source performs `as u32` /
`as i32` casts, and `Int.fdiv` for Rust's arithmetic right shift on `i32`.
Byte stores are `List Nat` (each element a byte value).  The sector-size
witness `S` is passed to every `Address` operation as `ls = S::LOG_SIZE`.
-/

set_option maxRecDepth 100000

deriving instance DecidableEq for Except

/-- Interpret a `u32` bit pattern as Rust's `i32` (two's-complement view). -/
def toI32 (n : Nat) : Int :=
  if n < 2 ^ 31 then (n : Int) else (n : Int) - 2 ^ 32

/-- The `as u32` cast of a signed intermediate result (truncating wrap). -/
def wrapU32 (z : Int) : Nat :=
  (z % (2 ^ 32 : Int)).toNat

/-- `Address<S>` from `src/sector.rs`: a `(sector, offset)` pair.  The
invariant `offset < S::SIZE` is established by the constructors below. -/
structure Address where
  sector : Nat
  offset : Nat
deriving Repr, DecidableEq, Inhabited

/-- `Address::new(sector, offset)` from `src/sector.rs`:
`sector = (sector as i32 + (offset >> LOG_SIZE)) as u32` (arithmetic shift,
i.e. flooring division) and `offset = offset.abs() as u32 & OFFSET_MASK`. -/
def Address.new (ls : Nat) (sector : Nat) (offset : Int) : Address :=
  { sector := wrapU32 (toI32 sector + Int.fdiv offset (2 ^ ls)),
    offset := offset.natAbs % 2 ^ ls }

/-- `Address::with_block_size(block, offset, log_block_size)` from
`src/sector.rs`.  The source computes `log_diff` as an `i32` difference and
shifts by it; every call site in the claims has `log_block_size ≥ LOG_SIZE`,
which the `Nat` subtraction models. -/
def Address.with_block_size (ls : Nat) (block : Nat) (offset : Int)
    (log_block_size : Nat) : Address :=
  let block := wrapU32 (toI32 block + Int.fdiv offset (2 ^ log_block_size))
  let offset := offset.natAbs % 2 ^ log_block_size
  let log_diff := log_block_size - ls
  let top_offset := offset >>> ls
  let offset2 := offset % 2 ^ ls
  { sector := ((block <<< log_diff) % 2 ^ 32) ||| top_offset,
    offset := offset2 }

/-- `Address::into_index`: `(sector as u64) << LOG_SIZE + offset` (no `u64`
overflow is possible for the recognised witnesses, so plain `Nat`). -/
def Address.into_index (ls : Nat) (a : Address) : Nat :=
  (a.sector <<< ls) + a.offset

/-- `From<usize>` / `From<u64>` for `Address`:
`sector = (idx >> LOG_SIZE) as u32`, `offset = idx & OFFSET_MASK`. -/
def Address.ofIndex (ls : Nat) (idx : Nat) : Address :=
  Address.new ls ((idx >>> ls) % 2 ^ 32) ((idx % 2 ^ ls : Nat) : Int)

/-- `Add for Address`: `Address::new(self.sector + rhs.sector,
(self.offset + rhs.offset) as i32)` (the `u32` sum is reinterpreted as
`i32`, modelled by the wrap and `toI32`). -/
def Address.add (ls : Nat) (a b : Address) : Address :=
  Address.new ls ((a.sector + b.sector) % 2 ^ 32)
    (toI32 ((a.offset + b.offset) % 2 ^ 32))

/-- The derived lexicographic `<` on `Address` (field order: `sector`,
`offset`), which is what the `PartialOrd`-based bounds checks use. -/
def Address.lexLt (a b : Address) : Prop :=
  a.sector < b.sector ∨ (a.sector = b.sector ∧ a.offset < b.offset)

instance (a b : Address) : Decidable (Address.lexLt a b) :=
  inferInstanceAs (Decidable (_ ∨ _))

/-- The error enumeration from `src/error.rs` (names as `String` become
byte lists; the `Other` and `Io` variants are not reachable in the model). -/
inductive Error where
  | BadMagic (magic : Nat)
  | OutOfBounds (index : Nat)
  | AddressOutOfBounds (sector : Nat) (offset : Nat) (size : Nat)
  | BadBlockGroupCount (by_blocks : Nat) (by_inodes : Nat)
  | InodeNotFound (inode : Nat)
  | NotADirectory (inode : Nat) (name : List Nat)
  | NotAbsolute (name : List Nat)
  | NotFound (name : List Nat)
deriving Repr, DecidableEq

/-- Byte at index `i` of a byte store (in-bounds accesses only are exercised
by the source; out-of-range reads default to 0 in the model). -/
def byteAt : List Nat → Nat → Nat
  | [], _ => 0
  | b :: _, 0 => b
  | _ :: rest, i + 1 => byteAt rest i

/-- Little-endian `u16` read, as produced by `dynamic_cast` on two bytes. -/
def readU16 (bytes : List Nat) (off : Nat) : Nat :=
  byteAt bytes off + 256 * byteAt bytes (off + 1)

/-- Little-endian `u32` read, as produced by `dynamic_cast` on four bytes. -/
def readU32 (bytes : List Nat) (off : Nat) : Nat :=
  byteAt bytes off + 256 * byteAt bytes (off + 1) +
    65536 * byteAt bytes (off + 2) + 16777216 * byteAt bytes (off + 3)

/-- Tail-recursive list length with a forced accumulator.  This is
`List.length` (see `volLength_eq`); the reformulation only exists so that
bounds checks reduce iteratively on concrete multi-KiB volumes. -/
def lenAux : List Nat → Nat → Nat
  | [], acc => acc
  | _ :: rest, 0 => lenAux rest 1
  | _ :: rest, acc + 1 => lenAux rest (acc + 2)

/-- The volume length (`<[T]>::len()` / `data.len()`). -/
def volLength (data : List Nat) : Nat := lenAux data 0

theorem lenAux_eq (l : List Nat) : ∀ acc, lenAux l acc = l.length + acc := by
  induction l with
  | nil => intro acc; simp [lenAux]
  | cons x xs ih =>
    intro acc
    cases acc with
    | zero =>
      show lenAux xs 1 = (x :: xs).length + 0
      rw [ih 1]
      simp [List.length_cons]
    | succ a =>
      show lenAux xs (a + 2) = (x :: xs).length + (a + 1)
      rw [ih (a + 2)]
      simp [List.length_cons]
      omega

theorem volLength_eq (l : List Nat) : volLength l = l.length := by
  rw [volLength, lenAux_eq]
  exact Nat.add_zero _

/-- The byte range `[s, e)` of a store, as `slice_unchecked` produces it
(`get_unchecked(start.into_index()..end.into_index())`). -/
def extractBytes (data : List Nat) (s e : Nat) : List Nat :=
  (data.drop s).take (e - s)

/-- `Volume::slice` of the in-memory byte volume (`impl_slice!` in
`src/volume/mod.rs`): bounds-check `size() >= range.end` (with
`size() = Bounded(Address::from(len))` and the lexicographic order),
then `slice_unchecked`. -/
def memSlice (ls : Nat) (data : List Nat) (start stop : Address) :
    Except Error (List Nat) :=
  if Address.lexLt (Address.ofIndex ls (volLength data)) stop then
    .error (.AddressOutOfBounds stop.sector stop.offset (2 ^ ls))
  else
    .ok (extractBytes data (start.into_index ls) (stop.into_index ls))

/-! ### Basic arithmetic lemmas about the address embedding -/

theorem fdiv_cast (m n : Nat) :
    Int.fdiv ((m : Nat) : Int) ((n : Nat) : Int) = ((m / n : Nat) : Int) := by
  cases m with
  | zero => simp [Int.fdiv]
  | succ k => rfl

theorem fdiv_cast_pow (o k : Nat) :
    Int.fdiv ((o : Nat) : Int) ((2 : Int) ^ k) = ((o / 2 ^ k : Nat) : Int) := by
  have h2 : ((2 : Int) ^ k) = ((2 ^ k : Nat) : Int) := by push_cast; ring
  rw [h2]
  exact fdiv_cast o (2 ^ k)

theorem toI32_small (n : Nat) (h : n < 2 ^ 31) : toI32 n = (n : Int) := by
  unfold toI32
  rw [if_pos h]

theorem wrapU32_toI32 (n : Nat) (h : n < 2 ^ 32) : wrapU32 (toI32 n) = n := by
  unfold wrapU32 toI32
  have h32 : ((2 : Int) ^ 32) = 4294967296 := by norm_num
  rw [h32]
  have h31 : ((2 : Int) ^ 31) = 2147483648 := by norm_num
  split <;> omega

theorem wrapU32_cast (n : Nat) (h : n < 2 ^ 32) : wrapU32 ((n : Nat) : Int) = n := by
  unfold wrapU32
  have h32 : ((2 : Int) ^ 32) = 4294967296 := by norm_num
  rw [h32]
  omega

/-- `Address::new` with a non-negative offset, in the absence of overflow. -/
theorem Address.new_eval (ls s o : Nat) (h : s + o / 2 ^ ls < 2 ^ 31) :
    Address.new ls s ((o : Nat) : Int) =
      { sector := s + o / 2 ^ ls, offset := o % 2 ^ ls } := by
  unfold Address.new
  have hs : s < 2 ^ 31 := lt_of_le_of_lt (Nat.le_add_right _ _) h
  rw [fdiv_cast_pow, toI32_small s hs]
  have hsum : ((s : Int) + ((o / 2 ^ ls : Nat) : Int)) = ((s + o / 2 ^ ls : Nat) : Int) := by
    push_cast; ring
  rw [hsum, wrapU32_cast _ (lt_trans h (by norm_num))]
  simp

/-- `Address::new` with a small non-negative offset is the identity pair. -/
theorem Address.new_small (ls s o : Nat) (hs : s < 2 ^ 32) (ho : o < 2 ^ ls) :
    Address.new ls s ((o : Nat) : Int) = { sector := s, offset := o } := by
  unfold Address.new
  rw [fdiv_cast_pow, Nat.div_eq_of_lt ho]
  have hz : (toI32 s + ((0 : Nat) : Int)) = toI32 s := by simp
  rw [hz, wrapU32_toI32 s hs]
  simp [Nat.mod_eq_of_lt ho]

theorem Address.ofIndex_eval (ls n : Nat) (h : n < 2 ^ (32 + ls)) :
    Address.ofIndex ls n = { sector := n >>> ls, offset := n % 2 ^ ls } := by
  unfold Address.ofIndex
  have hsec : n >>> ls < 2 ^ 32 := by
    rw [Nat.shiftRight_eq_div_pow]
    rw [pow_add] at h
    rw [Nat.div_lt_iff_lt_mul (pow_pos (by norm_num) ls)]
    exact h
  rw [Nat.mod_eq_of_lt hsec]
  exact Address.new_small ls _ _ hsec (Nat.mod_lt _ (pow_pos (by norm_num) ls))

theorem Address.into_ofIndex (ls n : Nat) (h : n < 2 ^ (32 + ls)) :
    (Address.ofIndex ls n).into_index ls = n := by
  rw [Address.ofIndex_eval ls n h]
  unfold Address.into_index
  simp only [Nat.shiftLeft_eq, Nat.shiftRight_eq_div_pow]
  rw [Nat.mul_comm]
  exact Nat.div_add_mod n (2 ^ ls)

theorem Address.offset_new_lt (ls : Nat) (s : Nat) (o : Int) :
    (Address.new ls s o).offset < 2 ^ ls :=
  Nat.mod_lt _ (pow_pos (by norm_num) ls)

theorem Address.offset_ofIndex_lt (ls n : Nat) :
    (Address.ofIndex ls n).offset < 2 ^ ls :=
  Address.offset_new_lt ls _ _

/-- For addresses satisfying the `offset < S::SIZE` invariant, the derived
lexicographic order agrees with the linear byte index. -/
theorem Address.lexLt_iff_into (ls : Nat) (a b : Address)
    (ha : a.offset < 2 ^ ls) (hb : b.offset < 2 ^ ls) :
    a.lexLt b ↔ a.into_index ls < b.into_index ls := by
  unfold Address.lexLt Address.into_index
  simp only [Nat.shiftLeft_eq]
  constructor
  · rintro (h | ⟨hs, ho⟩)
    · calc a.sector * 2 ^ ls + a.offset < a.sector * 2 ^ ls + 2 ^ ls := by omega
        _ = (a.sector + 1) * 2 ^ ls := by ring
        _ ≤ b.sector * 2 ^ ls := Nat.mul_le_mul_right _ h
        _ ≤ b.sector * 2 ^ ls + b.offset := Nat.le_add_right _ _
    · rw [hs]; omega
  · intro h
    rcases Nat.lt_trichotomy a.sector b.sector with hlt | heq | hgt
    · exact Or.inl hlt
    · exact Or.inr ⟨heq, by rw [heq] at h; omega⟩
    · exfalso
      have : b.sector * 2 ^ ls + b.offset < a.sector * 2 ^ ls + a.offset := by
        calc b.sector * 2 ^ ls + b.offset < b.sector * 2 ^ ls + 2 ^ ls := by omega
          _ = (b.sector + 1) * 2 ^ ls := by ring
          _ ≤ a.sector * 2 ^ ls := Nat.mul_le_mul_right _ hgt
          _ ≤ a.sector * 2 ^ ls + a.offset := Nat.le_add_right _ _
      omega

/-! ### Claims C3 and C4: address constructor arithmetic -/

/-- C3 (amended): for `log_block_size ≥ LOG_SIZE`, `byte_offset <
2^log_block_size` and no `u32` overflow of the computed sector
(`block · 2^(log_block_size − LOG_SIZE) + byte_offset / 2^LOG_SIZE < 2^32`),
`with_block_size(block, byte_offset, log_block_size).into_index()` equals
`block · 2^log_block_size + byte_offset`. -/
theorem with_block_size_into_index (ls lbs block off : Nat)
    (hls : ls ≤ lbs) (hoff : off < 2 ^ lbs)
    (hfit : block * 2 ^ (lbs - ls) + off / 2 ^ ls < 2 ^ 32) :
    (Address.with_block_size ls block ((off : Nat) : Int) lbs).into_index ls =
      block * 2 ^ lbs + off := by
  have hblock₁ : block ≤ block * 2 ^ (lbs - ls) :=
    Nat.le_mul_of_pos_right block (pow_pos (by norm_num) _)
  have hblock : block < 2 ^ 32 :=
    lt_of_le_of_lt (le_trans hblock₁ (Nat.le_add_right _ _)) hfit
  unfold Address.with_block_size
  rw [fdiv_cast_pow, Nat.div_eq_of_lt hoff]
  have hz : (toI32 block + ((0 : Nat) : Int)) = toI32 block := by simp
  rw [hz, wrapU32_toI32 block hblock]
  simp only [Int.natAbs_ofNat]
  rw [Nat.mod_eq_of_lt hoff]
  have htop : off >>> ls < 2 ^ (lbs - ls) := by
    rw [Nat.shiftRight_eq_div_pow]
    rw [Nat.div_lt_iff_lt_mul (pow_pos (by norm_num) ls)]
    rw [← pow_add, Nat.sub_add_cancel hls]
    exact hoff
  have hshift : block <<< (lbs - ls) = block * 2 ^ (lbs - ls) := Nat.shiftLeft_eq _ _
  have hsmall : block * 2 ^ (lbs - ls) < 2 ^ 32 :=
    lt_of_le_of_lt (Nat.le_add_right _ _) hfit
  have hsec : (block <<< (lbs - ls)) % 2 ^ 32 = block * 2 ^ (lbs - ls) := by
    rw [hshift, Nat.mod_eq_of_lt hsmall]
  rw [hsec]
  have hor : block * 2 ^ (lbs - ls) ||| off >>> ls =
      block * 2 ^ (lbs - ls) + off >>> ls := by
    have h1 := Nat.mul_add_lt_is_or htop block
    rw [Nat.mul_comm (2 ^ (lbs - ls)) block] at h1
    omega
  rw [hor]
  unfold Address.into_index
  simp only [Nat.shiftLeft_eq, Nat.shiftRight_eq_div_pow]
  have hexp : 2 ^ (lbs - ls) * 2 ^ ls = 2 ^ lbs := by
    rw [← pow_add, Nat.sub_add_cancel hls]
  have hmod := Nat.div_add_mod off (2 ^ ls)
  calc (block * 2 ^ (lbs - ls) + off / 2 ^ ls) * 2 ^ ls + off % 2 ^ ls
      = block * (2 ^ (lbs - ls) * 2 ^ ls) + (2 ^ ls * (off / 2 ^ ls) + off % 2 ^ ls) := by
        ring
    _ = block * 2 ^ lbs + off := by rw [hexp, hmod]

/-- C3, counterexample to the unrestricted claim: with `S = Size512`
(`LOG_SIZE = 9`), `log_block_size = 10` and `block = 2^31`, the `u32` sector
computation wraps and the linear index collapses to `0` instead of
`2^31 · 2^10`. -/
theorem with_block_size_overflow_counterexample :
    (Address.with_block_size 9 (2 ^ 31) 0 10).into_index 9 = 0 ∧
      (2 ^ 31 : Nat) * 2 ^ 10 + 0 ≠ 0 := by
  constructor
  · decide
  · decide

/-- C3, witness: `with_block_size(1, 256, 10)` over `Size512` has linear
index `1 · 2^10 + 256 = 1280` (the example from the source's own tests). -/
theorem with_block_size_into_index_witness :
    (Address.with_block_size 9 1 ((256 : Nat) : Int) 10).into_index 9 =
      1 * 2 ^ 10 + 256 :=
  with_block_size_into_index 9 10 1 256 (by decide) (by decide) (by decide)

/-- C4: evaluation of `Address::new` at the failing input `S = Size512`,
`sector = 1`, `offset = −100`.  The claim requires
`sector · 512 + offset = 1 · 512 − 100 = 412`, but the source floors the
sector (arithmetic shift) while taking `offset.abs()`, producing the pair
`(0, 100)` with linear index `100`. -/
theorem address_new_negative_offset_eval :
    Address.new 9 1 (-100) = { sector := 0, offset := 100 } ∧
      (Address.new 9 1 (-100)).sector * 2 ^ 9 + (Address.new 9 1 (-100)).offset ≠ 412 ∧
      ((1 : Int) * 2 ^ 9 + (-100) = 412) := by
  refine ⟨by decide, by decide, by decide⟩

/-! ### On-disk records and their locators -/

/-- The fields of `Superblock` (`src/sys/superblock.rs`) that the core reads.
The remaining packed fields (timestamps, ids, names, padding) are never
consulted by the embedded operations and are omitted from the projection. -/
structure Superblock where
  inodes_count : Nat
  blocks_count : Nat
  free_blocks_count : Nat
  first_data_block : Nat
  log_block_size : Nat
  blocks_per_group : Nat
  inodes_per_group : Nat
  magic : Nat
  rev_minor : Nat
  rev_major : Nat
  inode_size : Nat
  features_ronly : Nat
deriving Repr, DecidableEq

/-- `dynamic_cast::<Superblock>` on a 1024-byte slice: little-endian reads at
the packed offsets of the struct (`magic` at byte 56, `features_ronly` at
byte 100, ...). -/
def decodeSuperblock (b : List Nat) : Superblock :=
  { inodes_count := readU32 b 0
    blocks_count := readU32 b 4
    free_blocks_count := readU32 b 12
    first_data_block := readU32 b 20
    log_block_size := readU32 b 24
    blocks_per_group := readU32 b 32
    inodes_per_group := readU32 b 40
    magic := readU16 b 56
    rev_minor := readU16 b 62
    rev_major := readU32 b 76
    inode_size := readU16 b 88
    features_ronly := readU32 b 100 }

/-- `Superblock::find` (`src/sys/superblock.rs`): read `[1024, 2048)`,
bounds-check `size() < end`, cast, then verify the magic. -/
def Superblock.find (ls : Nat) (data : List Nat) :
    Except Error (Superblock × Address) :=
  let offset := Address.ofIndex ls 1024
  let endA := Address.add ls offset (Address.ofIndex ls 1024)
  if Address.lexLt (Address.ofIndex ls (volLength data)) endA then
    .error (.AddressOutOfBounds endA.sector endA.offset (2 ^ ls))
  else
    let sb := decodeSuperblock
      (extractBytes data (offset.into_index ls) (endA.into_index ls))
    if sb.magic ≠ 0xEF53 then .error (.BadMagic sb.magic) else .ok (sb, offset)

/-- `Superblock::block_group_count`: compute the group count from the block
fields and from the inode fields and require agreement. -/
def Superblock.block_group_count (sb : Superblock) : Except (Nat × Nat) Nat :=
  let blocks_mod := sb.blocks_count % sb.blocks_per_group
  let inodes_mod := sb.inodes_count % sb.inodes_per_group
  let blocks_inc := if blocks_mod = 0 then 0 else 1
  let inodes_inc := if inodes_mod = 0 then 0 else 1
  let by_blocks := sb.blocks_count / sb.blocks_per_group + blocks_inc
  let by_inodes := sb.inodes_count / sb.inodes_per_group + inodes_inc
  if by_blocks = by_inodes then .ok by_blocks else .error (by_blocks, by_inodes)

/-- `BlockGroupDescriptor` (`src/sys/block_group.rs`), 32 bytes packed. -/
structure BlockGroupDescriptor where
  block_usage_addr : Nat
  inode_usage_addr : Nat
  inode_table_block : Nat
  free_blocks_count : Nat
  free_inodes_count : Nat
  dirs_count : Nat
deriving Repr, DecidableEq, Inhabited

/-- `dynamic_cast::<BlockGroupDescriptor>` on a 32-byte slice. -/
def decodeBGD (b : List Nat) : BlockGroupDescriptor :=
  { block_usage_addr := readU32 b 0
    inode_usage_addr := readU32 b 4
    inode_table_block := readU32 b 8
    free_blocks_count := readU16 b 12
    free_inodes_count := readU16 b 14
    dirs_count := readU16 b 16 }

/-- `BlockGroupDescriptor::find_descriptor`: bounds-check one 32-byte record
at `offset` against the volume length, then cast. -/
def find_descriptor (ls : Nat) (data : List Nat) (offset : Address) :
    Except Error (BlockGroupDescriptor × Address) :=
  let endA := Address.add ls offset (Address.ofIndex ls 32)
  if Address.lexLt (Address.ofIndex ls (volLength data)) endA then
    .error (.AddressOutOfBounds endA.sector endA.offset (2 ^ ls))
  else
    .ok (decodeBGD (extractBytes data (offset.into_index ls) (endA.into_index ls)),
      offset)

/-- The `for i in 0..count` loop of `find_descriptor_table`: read record `i`
at `offset + i * 32` and push it; the first error aborts. -/
def descrTableFrom (ls : Nat) (data : List Nat) (offset : Address) :
    Nat → Nat → Except Error (List BlockGroupDescriptor)
  | _, 0 => .ok []
  | i, k + 1 =>
    match find_descriptor ls data (Address.add ls offset (Address.ofIndex ls (i * 32))) with
    | .error e => .error e
    | .ok (d, _) =>
      match descrTableFrom ls data offset (i + 1) k with
      | .error e => .error e
      | .ok rest => .ok (d :: rest)

/-- `BlockGroupDescriptor::find_descriptor_table`: bounds-check the whole
table, then read `count` records; returns the records together with the
table's starting address. -/
def find_descriptor_table (ls : Nat) (data : List Nat) (offset : Address)
    (count : Nat) : Except Error (List BlockGroupDescriptor × Address) :=
  let endA := Address.add ls offset (Address.ofIndex ls (count * 32))
  if Address.lexLt (Address.ofIndex ls (volLength data)) endA then
    .error (.AddressOutOfBounds endA.sector endA.offset (2 ^ ls))
  else
    match descrTableFrom ls data offset 0 count with
    | .error e => .error e
    | .ok vec => .ok (vec, offset)

/-- The raw `Inode` record (`src/sys/inode.rs`), 128 bytes packed; the
timestamp, flags and OS-specific fields are never consulted by the embedded
operations and are omitted from the projection. -/
structure RawInode where
  type_perm : Nat
  uid : Nat
  size_low : Nat
  gid : Nat
  hard_links : Nat
  sectors_count : Nat
  direct_pointer : List Nat
  indirect_pointer : Nat
  doubly_indirect : Nat
  triply_indirect : Nat
  size_high : Nat
deriving Repr, DecidableEq

/-- `dynamic_cast::<Inode>` on a 128-byte slice (packed offsets:
`type_perm` at 0, `direct_pointer` at 40..88, `size_high` at 108, ...). -/
def decodeRawInode (b : List Nat) : RawInode :=
  { type_perm := readU16 b 0
    uid := readU16 b 2
    size_low := readU32 b 4
    gid := readU16 b 24
    hard_links := readU16 b 26
    sectors_count := readU32 b 28
    direct_pointer := (List.range 12).map (fun k => readU32 b (40 + 4 * k))
    indirect_pointer := readU32 b 88
    doubly_indirect := readU32 b 92
    triply_indirect := readU32 b 96
    size_high := readU32 b 108 }

/-- Modelled from the spec: the body of `Inode::find_inode` is not under
`src/` (only its callers in the inode iterators are).  Spec section 4.C:
"`find_inode(volume, addr, inode_size)` reads 128 bytes (ignoring any excess
up to `inode_size`, since >128 is not supported) and returns `(inode, addr)`",
with the same bounds check as the other record locators. -/
def find_inode (ls : Nat) (data : List Nat) (addr : Address)
    (_inode_size : Nat) : Except Error (RawInode × Address) :=
  let endA := Address.add ls addr (Address.ofIndex ls 128)
  if Address.lexLt (Address.ofIndex ls (volLength data)) endA then
    .error (.AddressOutOfBounds endA.sector endA.offset (2 ^ ls))
  else
    .ok (decodeRawInode (extractBytes data (addr.into_index ls) (endA.into_index ls)),
      addr)

/-- The `Ext2` aggregate (`src/fs/mod.rs`): volume, cached superblock and
group-descriptor table with their on-disk addresses. -/
structure Ext2 where
  volume : List Nat
  superblock : Superblock
  superblock_offset : Address
  block_groups : List BlockGroupDescriptor
  block_groups_offset : Address
deriving Repr, DecidableEq

/-- The tail of `Ext2::new` once the group count is known: read the
descriptor table at block `first_data_block + 1` (the last `?`). -/
def Ext2.newWithCount (ls : Nat) (data : List Nat) (sb : Superblock)
    (sbOff : Address) (count : Nat) : Except Error Ext2 :=
  match find_descriptor_table ls data
      (Address.with_block_size ls (sb.first_data_block + 1) 0
        (sb.log_block_size + 10)) count with
  | .error e => .error e
  | .ok (bgs, off) =>
    .ok { volume := data, superblock := sb, superblock_offset := sbOff,
          block_groups := bgs, block_groups_offset := off }

/-- The tail of `Ext2::new` once the superblock is found: the
`block_group_count` check with its `map_err` to `BadBlockGroupCount`. -/
def Ext2.newWithSb (ls : Nat) (data : List Nat) (sb : Superblock)
    (sbOff : Address) : Except Error Ext2 :=
  match sb.block_group_count with
  | .error ab => .error (.BadBlockGroupCount ab.1 ab.2)
  | .ok count => Ext2.newWithCount ls data sb sbOff count

/-- `Ext2::new`: find the superblock, derive the descriptor-table address,
require the two block-group counts to agree, read the table (the `?`
sequence of the source, staged through the two helpers above). -/
def Ext2.new (ls : Nat) (data : List Nat) : Except Error Ext2 :=
  match Superblock.find ls data with
  | .error e => .error e
  | .ok (sb, sbOff) => Ext2.newWithSb ls data sb sbOff

/-- `Ext2::log_block_size`: `superblock.log_block_size + 10`. -/
def Ext2.log_block_size (fs : Ext2) : Nat := fs.superblock.log_block_size + 10

/-- `Superblock::block_size` / `Ext2::block_size`: `1024 << log_block_size`. -/
def Ext2.block_size (fs : Ext2) : Nat := 1024 <<< fs.superblock.log_block_size

/-- `Ext2::inode_size`: 128 bytes for revision 0, else the superblock field. -/
def Ext2.inode_size (fs : Ext2) : Nat :=
  if fs.superblock.rev_major = 0 then 128 else fs.superblock.inode_size

/-- `Ext2::inodes_count` (the source returns `inodes_per_group` here). -/
def Ext2.inodes_count (fs : Ext2) : Nat := fs.superblock.inodes_per_group

/-- `Ext2::total_inodes_count`: the superblock's `inodes_count`. -/
def Ext2.total_inodes_count (fs : Ext2) : Nat := fs.superblock.inodes_count

/-! ### List access lemmas -/

theorem byteAt_drop (l : List Nat) (n i : Nat) :
    byteAt (l.drop n) i = byteAt l (n + i) := by
  induction n generalizing l with
  | zero => simp
  | succ k ih =>
    cases l with
    | nil => simp [byteAt]
    | cons x xs =>
      have h1 : (x :: xs).drop (k + 1) = xs.drop k := rfl
      rw [h1, ih xs]
      have h2 : k + 1 + i = (k + i) + 1 := by omega
      rw [h2]
      rfl

theorem byteAt_take (l : List Nat) (n i : Nat) (h : i < n) :
    byteAt (l.take n) i = byteAt l i := by
  induction l generalizing n i with
  | nil => simp [byteAt]
  | cons x xs ih =>
    cases n with
    | zero => omega
    | succ m =>
      cases i with
      | zero => rfl
      | succ j => exact ih m j (by omega)

theorem byteAt_extract (data : List Nat) (s e i : Nat) (h : i < e - s) :
    byteAt (extractBytes data s e) i = byteAt data (s + i) := by
  unfold extractBytes
  rw [byteAt_take _ _ _ h, byteAt_drop]

theorem byteAt_replicate_zero (n i : Nat) :
    byteAt (List.replicate n 0) i = 0 := by
  induction n generalizing i with
  | zero => rfl
  | succ k ih =>
    cases i with
    | zero => rfl
    | succ j => exact ih j

/-! ### More address arithmetic -/

theorem Address.into_new (ls s o : Nat) (h : s + o / 2 ^ ls < 2 ^ 31) :
    (Address.new ls s ((o : Nat) : Int)).into_index ls = s * 2 ^ ls + o := by
  rw [Address.new_eval ls s o h]
  unfold Address.into_index
  simp only [Nat.shiftLeft_eq]
  calc (s + o / 2 ^ ls) * 2 ^ ls + o % 2 ^ ls
      = s * 2 ^ ls + (2 ^ ls * (o / 2 ^ ls) + o % 2 ^ ls) := by ring
    _ = s * 2 ^ ls + o := by rw [Nat.div_add_mod]

theorem Address.into_add (ls : Nat) (x y : Address)
    (h : x.sector + y.sector + (x.offset + y.offset) / 2 ^ ls < 2 ^ 31)
    (ho : x.offset + y.offset < 2 ^ 31) :
    (Address.add ls x y).into_index ls = x.into_index ls + y.into_index ls := by
  have hssum : x.sector + y.sector < 2 ^ 31 := lt_of_le_of_lt (Nat.le_add_right _ _) h
  unfold Address.add
  rw [Nat.mod_eq_of_lt (lt_trans hssum (by norm_num)),
    Nat.mod_eq_of_lt (lt_trans ho (by norm_num)), toI32_small _ ho,
    Address.into_new ls _ _ h]
  unfold Address.into_index
  simp only [Nat.shiftLeft_eq]
  ring

theorem Address.offset_add_lt (ls : Nat) (x y : Address) :
    (Address.add ls x y).offset < 2 ^ ls :=
  Address.offset_new_lt ls _ _

/-! ### Claim C5: superblock magic checking -/

/-- C5 (amended): on a volume of at least 2048 and fewer than
`2^(32 + LOG_SIZE)` bytes, `Superblock::find` fails with `BadMagic` carrying
the little-endian 16-bit value of bytes `1024+56, 1024+57` exactly when that
pair is not `0x53 0xEF`; otherwise it returns the decoded superblock record
together with its address (byte 1024). -/
theorem superblock_find_magic (ls : Nat) (data : List Nat)
    (hlen : 2048 ≤ data.length) (hwrap : data.length < 2 ^ (32 + ls))
    (hb0 : byteAt data 1080 < 256) :
    ((¬(byteAt data 1080 = 0x53 ∧ byteAt data 1081 = 0xEF)) →
        Superblock.find ls data =
          .error (.BadMagic (byteAt data 1080 + 256 * byteAt data 1081)))
    ∧ ((byteAt data 1080 = 0x53 ∧ byteAt data 1081 = 0xEF) →
        Superblock.find ls data =
          .ok (decodeSuperblock (extractBytes data 1024 2048),
            Address.ofIndex ls 1024)) := by
  have h1024 : (1024 : Nat) < 2 ^ (32 + ls) :=
    lt_of_lt_of_le (by norm_num : (1024 : Nat) < 2 ^ 32)
      (Nat.pow_le_pow_right (by norm_num) (by omega))
  have haInto : (Address.ofIndex ls 1024).into_index ls = 1024 :=
    Address.into_ofIndex ls 1024 h1024
  have h1 : (Address.ofIndex ls 1024).sector * 2 ^ ls +
      (Address.ofIndex ls 1024).offset = 1024 := by
    have h2 := haInto
    unfold Address.into_index at h2
    rwa [Nat.shiftLeft_eq] at h2
  have hsle : (Address.ofIndex ls 1024).sector ≤
      (Address.ofIndex ls 1024).sector * 2 ^ ls :=
    Nat.le_mul_of_pos_right _ (pow_pos (by norm_num) _)
  have hs1024 : (Address.ofIndex ls 1024).sector ≤ 1024 := by omega
  have ho1024 : (Address.ofIndex ls 1024).offset ≤ 1024 := by omega
  have hdivle : ((Address.ofIndex ls 1024).offset + (Address.ofIndex ls 1024).offset) / 2 ^ ls ≤
      (Address.ofIndex ls 1024).offset + (Address.ofIndex ls 1024).offset :=
    Nat.div_le_self _ _
  have hadd : (Address.add ls (Address.ofIndex ls 1024)
      (Address.ofIndex ls 1024)).into_index ls = 2048 := by
    rw [Address.into_add ls _ _ (by omega) (by omega), haInto]
  have hguard : ¬ Address.lexLt (Address.ofIndex ls (volLength data))
      (Address.add ls (Address.ofIndex ls 1024) (Address.ofIndex ls 1024)) := by
    rw [volLength_eq]
    rw [Address.lexLt_iff_into ls _ _ (Address.offset_ofIndex_lt ls _)
      (Address.offset_add_lt ls _ _)]
    rw [Address.into_ofIndex ls _ hwrap, hadd]
    omega
  have hmagic : (decodeSuperblock (extractBytes data 1024 2048)).magic =
      byteAt data 1080 + 256 * byteAt data 1081 := by
    show readU16 (extractBytes data 1024 2048) 56 = _
    unfold readU16
    rw [byteAt_extract data 1024 2048 56 (by norm_num),
      byteAt_extract data 1024 2048 57 (by norm_num)]
  unfold Superblock.find
  rw [if_neg hguard, haInto, hadd]
  by_cases hm : byteAt data 1080 = 0x53 ∧ byteAt data 1081 = 0xEF
  · have hEq : (decodeSuperblock (extractBytes data 1024 2048)).magic = 0xEF53 := by
      rw [hmagic, hm.1, hm.2]
    rw [if_neg (by rw [hEq]; omega)]
    exact ⟨fun hcon => absurd hm hcon, fun _ => rfl⟩
  · have hNe : (decodeSuperblock (extractBytes data 1024 2048)).magic ≠ 0xEF53 := by
      rw [hmagic]
      intro hcon
      exact hm (by constructor <;> omega)
    rw [if_pos hNe]
    refine ⟨fun _ => ?_, fun hcon => absurd hcon hm⟩
    rw [hmagic]

/-- C5, counterexample to the unrestricted claim: a volume of `2^41` zero
bytes is at least 2048 bytes long and its magic bytes are not `0x53 0xEF`,
yet `find` (over `Size512`) reports `AddressOutOfBounds`, not `BadMagic`,
because the `u32` sector of the length address wraps to 0. -/
theorem superblock_find_huge_volume_counterexample :
    2048 ≤ (List.replicate (2 ^ 41) 0).length ∧
      byteAt (List.replicate (2 ^ 41) 0) 1080 = 0 ∧
      byteAt (List.replicate (2 ^ 41) 0) 1081 = 0 ∧
      Superblock.find 9 (List.replicate (2 ^ 41) 0) =
        .error (.AddressOutOfBounds 4 0 512) := by
  refine ⟨?_, byteAt_replicate_zero _ _, byteAt_replicate_zero _ _, ?_⟩
  · rw [List.length_replicate]; norm_num
  · unfold Superblock.find
    rw [volLength_eq, List.length_replicate]
    rw [if_pos (by decide)]
    decide

/-- C5, witness: an all-zero 2048-byte volume fails with `BadMagic 0`. -/
theorem superblock_find_magic_witness :
    Superblock.find 9 (List.replicate 2048 0) =
      .error (.BadMagic (byteAt (List.replicate 2048 0) 1080 +
        256 * byteAt (List.replicate 2048 0) 1081)) :=
  (superblock_find_magic 9 (List.replicate 2048 0)
    (by rw [List.length_replicate])
    (by rw [List.length_replicate]; norm_num)
    (by rw [byteAt_replicate_zero]; norm_num)).1
    (by rw [byteAt_replicate_zero]; simp)

/-! ### Claim C6: block-group count consistency -/

/-- The code's rounded-up quotient `a / b + (if a % b = 0 then 0 else 1)`
agrees with `ceil(a / b) = (a + b - 1) / b` for positive divisors. -/
theorem div_ceil_eq (a b : Nat) (hb : 0 < b) :
    a / b + (if a % b = 0 then 0 else 1) = (a + b - 1) / b := by
  obtain ⟨q, r, hqr, hrb⟩ : ∃ q r, a = b * q + r ∧ r < b :=
    ⟨a / b, a % b, (Nat.div_add_mod a b).symm, Nat.mod_lt _ hb⟩
  subst hqr
  rw [Nat.mul_add_div hb, Nat.mul_add_mod, Nat.div_eq_of_lt hrb,
    Nat.mod_eq_of_lt hrb, Nat.add_zero]
  by_cases hr : r = 0
  · rw [if_pos hr]
    have hx : b * q + r + b - 1 = b * q + (b - 1) := by omega
    rw [hx, Nat.mul_add_div hb, Nat.div_eq_of_lt (by omega)]
  · rw [if_neg hr]
    have hmul : b * (q + 1) = b * q + b := by ring
    have hx : b * q + r + b - 1 = b * (q + 1) + (r - 1) := by omega
    rw [hx, Nat.mul_add_div hb, Nat.div_eq_of_lt (by omega)]

/-- `Superblock::block_group_count` in terms of the two ceilings. -/
theorem block_group_count_eval (sb : Superblock)
    (hb : 0 < sb.blocks_per_group) (hi : 0 < sb.inodes_per_group) :
    sb.block_group_count =
      if (sb.blocks_count + sb.blocks_per_group - 1) / sb.blocks_per_group =
          (sb.inodes_count + sb.inodes_per_group - 1) / sb.inodes_per_group
      then .ok ((sb.blocks_count + sb.blocks_per_group - 1) / sb.blocks_per_group)
      else .error ((sb.blocks_count + sb.blocks_per_group - 1) / sb.blocks_per_group,
        (sb.inodes_count + sb.inodes_per_group - 1) / sb.inodes_per_group) := by
  simp only [Superblock.block_group_count]
  rw [div_ceil_eq _ _ hb, div_ceil_eq _ _ hi]

/-- Recogniser for the `AddressOutOfBounds` error variant. -/
def Error.isAddrOOB : Error → Bool
  | .AddressOutOfBounds _ _ _ => true
  | _ => false

theorem find_descriptor_error_shape (ls : Nat) (data : List Nat)
    (off : Address) (e : Error) :
    find_descriptor ls data off = .error e → e.isAddrOOB = true := by
  intro h
  simp only [find_descriptor] at h
  by_cases hg : Address.lexLt (Address.ofIndex ls (volLength data))
      (Address.add ls off (Address.ofIndex ls 32))
  · rw [if_pos hg] at h
    injection h with h2
    rw [← h2]
    rfl
  · rw [if_neg hg] at h
    exact Except.noConfusion h

set_option maxHeartbeats 2000000 in
theorem descrTableFrom_error_shape (ls : Nat) (data : List Nat)
    (offset : Address) :
    ∀ k i e, descrTableFrom ls data offset i k = .error e →
      e.isAddrOOB = true := by
  intro k
  induction k with
  | zero =>
    intro i e h
    exact Except.noConfusion h
  | succ n ih =>
    intro i e h
    simp only [descrTableFrom] at h
    cases hfd : find_descriptor ls data
        (Address.add ls offset (Address.ofIndex ls (i * 32))) with
    | error e2 =>
      rw [hfd] at h
      injection h with h2
      rw [← h2]
      exact find_descriptor_error_shape ls data _ e2 hfd
    | ok d =>
      rw [hfd] at h
      cases hrec : descrTableFrom ls data offset (i + 1) n with
      | error e3 =>
        rw [hrec] at h
        injection h with h2
        rw [← h2]
        exact ih (i + 1) e3 hrec
      | ok rest =>
        rw [hrec] at h
        exact Except.noConfusion h

theorem find_descriptor_table_error_shape (ls : Nat) (data : List Nat)
    (offset : Address) (count : Nat) (e : Error) :
    find_descriptor_table ls data offset count = .error e →
      e.isAddrOOB = true := by
  intro h
  simp only [find_descriptor_table] at h
  by_cases hg : Address.lexLt (Address.ofIndex ls (volLength data))
      (Address.add ls offset (Address.ofIndex ls (count * 32)))
  · rw [if_pos hg] at h
    injection h with h2
    rw [← h2]
    rfl
  · rw [if_neg hg] at h
    cases hrec : descrTableFrom ls data offset 0 count with
    | error e3 =>
      rw [hrec] at h
      injection h with h2
      rw [← h2]
      exact descrTableFrom_error_shape ls data offset count 0 e3 hrec
    | ok rest =>
      rw [hrec] at h
      exact Except.noConfusion h

set_option maxHeartbeats 2000000 in
/-- C6 (amended): with nonzero `blocks_per_group` and `inodes_per_group`,
`Ext2::new` fails with `BadBlockGroupCount{by_blocks, by_inodes}` exactly
when `ceil(blocks_count / blocks_per_group)` and
`ceil(inodes_count / inodes_per_group)` differ (and it carries exactly
those two ceilings). -/
theorem ext2_new_group_count (ls : Nat) (data : List Nat) (sb : Superblock)
    (a : Address) (x y : Nat)
    (hfind : Superblock.find ls data = .ok (sb, a))
    (hb : 0 < sb.blocks_per_group) (hi : 0 < sb.inodes_per_group) :
    (Ext2.new ls data = .error (.BadBlockGroupCount x y) ↔
      (x = (sb.blocks_count + sb.blocks_per_group - 1) / sb.blocks_per_group ∧
       y = (sb.inodes_count + sb.inodes_per_group - 1) / sb.inodes_per_group ∧
       x ≠ y)) := by
  simp only [Ext2.new, hfind, Ext2.newWithSb]
  rw [block_group_count_eval sb hb hi]
  by_cases hc : (sb.blocks_count + sb.blocks_per_group - 1) / sb.blocks_per_group =
      (sb.inodes_count + sb.inodes_per_group - 1) / sb.inodes_per_group
  · simp only [if_pos hc]
    constructor
    · intro h
      simp only [Ext2.newWithCount] at h
      cases htab : find_descriptor_table ls data
          (Address.with_block_size ls (sb.first_data_block + 1) 0
            (sb.log_block_size + 10))
          ((sb.blocks_count + sb.blocks_per_group - 1) / sb.blocks_per_group) with
      | error e =>
        rw [htab] at h
        injection h with h2
        have hshape := find_descriptor_table_error_shape ls data _ _ e htab
        rw [h2] at hshape
        exact absurd hshape (by simp [Error.isAddrOOB])
      | ok p =>
        rw [htab] at h
        exact Except.noConfusion h
    · rintro ⟨hx, hy, hxy⟩
      exact absurd (hx.trans (hc.trans hy.symm)) hxy
  · simp only [if_neg hc]
    constructor
    · intro h
      injection h with h2
      injection h2 with h3 h4
      exact ⟨h3.symm, h4.symm, by rw [← h3, ← h4]; exact hc⟩
    · rintro ⟨hx, hy, _⟩
      rw [hx, hy]

/-- `true` iff an `Ext2::new` result is `Ok` (Rust's `Result::is_ok`). -/
def exceptIsOk {ε α : Type} : Except ε α → Bool
  | .ok _ => true
  | .error _ => false

/-- The crafted superblock of the claim, as a 4-KiB volume:
`blocks_count = 8192`, `blocks_per_group = 4096`, `inodes_count = 4000`,
`inodes_per_group = 2048`, `first_data_block = 1`, block size 1024,
valid magic; everything else zero. -/
def c6OkVolume : List Nat :=
  ((((((((List.replicate 4096 0).set 1024 0xA0).set 1025 0x0F).set
    1029 0x20).set 1044 1).set 1057 0x10).set 1065 0x08).set
    1080 0x53).set 1081 0xEF

/-- The same crafted volume with `inodes_count = 4100` instead, whose two
group counts genuinely differ (2 by blocks, 3 by inodes). -/
def c6BadVolume : List Nat :=
  ((((((((List.replicate 4096 0).set 1024 0x04).set 1025 0x10).set
    1029 0x20).set 1044 1).set 1057 0x10).set 1065 0x08).set
    1080 0x53).set 1081 0xEF

/-- The decoded superblock of `c6BadVolume`. -/
def c6BadSb : Superblock :=
  { inodes_count := 4100, blocks_count := 8192, free_blocks_count := 0,
    first_data_block := 1, log_block_size := 0, blocks_per_group := 4096,
    inodes_per_group := 2048, magic := 0xEF53, rev_minor := 0, rev_major := 0,
    inode_size := 0, features_ronly := 0 }

set_option maxHeartbeats 4000000 in
/-- C6, counterexample to the claim's concrete example: the crafted
superblock with `blocks_count = 8192`, `blocks_per_group = 4096`,
`inodes_count = 4000`, `inodes_per_group = 2048` has both group counts
equal to 2, so `block_group_count` succeeds with `Ok(2)` and `Ext2::new`
does not fail with `BadBlockGroupCount{2, 2}` — it succeeds. -/
theorem block_group_count_crafted_counterexample :
    (decodeSuperblock (extractBytes c6OkVolume 1024 2048)).blocks_count = 8192 ∧
    (decodeSuperblock (extractBytes c6OkVolume 1024 2048)).blocks_per_group = 4096 ∧
    (decodeSuperblock (extractBytes c6OkVolume 1024 2048)).inodes_count = 4000 ∧
    (decodeSuperblock (extractBytes c6OkVolume 1024 2048)).inodes_per_group = 2048 ∧
    (decodeSuperblock (extractBytes c6OkVolume 1024 2048)).block_group_count = .ok 2 ∧
    Ext2.new 9 c6OkVolume ≠ .error (.BadBlockGroupCount 2 2) ∧
    exceptIsOk (Ext2.new 9 c6OkVolume) = true := by
  refine ⟨by decide, by decide, by decide, by decide, by decide, by decide, by decide⟩

set_option maxHeartbeats 4000000 in
/-- C6, witness: with `inodes_count = 4100` the two counts are 2 and 3 and
construction fails with exactly `BadBlockGroupCount{2, 3}`. -/
theorem ext2_new_group_count_witness :
    Ext2.new 9 c6BadVolume = .error (.BadBlockGroupCount 2 3) :=
  (ext2_new_group_count 9 c6BadVolume c6BadSb { sector := 2, offset := 0 } 2 3
    (by decide) (by decide) (by decide)).mpr ⟨by decide, by decide, by decide⟩

/-! ### Claim C7: `Inode::size` and the 64-bit size feature -/

/-- `Inode::size32`: the low 32 bits only. -/
def RawInode.size32 (i : RawInode) : Nat := i.size_low

/-- `Inode::size64`: `size_low as u64 | (size_high as u64) << 32`. -/
def RawInode.size64 (i : RawInode) : Nat := i.size_low ||| (i.size_high <<< 32)

/-- `Inode::size` on 64-bit targets (`target_pointer_width = "64"`), which
is `size64` unconditionally. -/
def RawInode.size (i : RawInode) : Nat := i.size64

/-- A superblock whose read-only feature bits are all clear (in particular
`RONLY_FILE_SIZE_64 = 0x0002` is not set). -/
def c7Superblock : Superblock :=
  { inodes_count := 0, blocks_count := 0, free_blocks_count := 0,
    first_data_block := 0, log_block_size := 0, blocks_per_group := 0,
    inodes_per_group := 0, magic := 0xEF53, rev_minor := 0, rev_major := 1,
    inode_size := 128, features_ronly := 0 }

/-- An inode with `size_low = 0` and `size_high = 1`. -/
def c7Inode : RawInode :=
  { type_perm := 0x8000, uid := 0, size_low := 0, gid := 0, hard_links := 1,
    sectors_count := 0, direct_pointer := List.replicate 12 0,
    indirect_pointer := 0, doubly_indirect := 0, triply_indirect := 0,
    size_high := 1 }

/-- C7, counterexample: the filesystem's `RONLY_FILE_SIZE_64` bit is clear,
yet `Inode::size()` still combines `size_high` (returning `2^32`, not
`size_low = 0`): the feature bit is never consulted. -/
theorem inode_size_feature_counterexample :
    c7Superblock.features_ronly &&& 0x0002 = 0 ∧
      RawInode.size c7Inode ≠ c7Inode.size_low ∧
      RawInode.size c7Inode = 2 ^ 32 := by
  refine ⟨by decide, by decide, by decide⟩

/-- C7 (amended): on 64-bit targets `Inode::size()` always returns
`size_low + 2^32 * size_high`, regardless of the `RONLY_FILE_SIZE_64`
read-only feature bit; only `size32()` returns `size_low` alone. -/
theorem inode_size_combines_always (i : RawInode) (h : i.size_low < 2 ^ 32) :
    RawInode.size i = i.size_low + 2 ^ 32 * i.size_high ∧
      RawInode.size32 i = i.size_low := by
  refine ⟨?_, rfl⟩
  unfold RawInode.size RawInode.size64
  rw [Nat.shiftLeft_eq, Nat.lor_comm, Nat.mul_comm,
    ← Nat.mul_add_lt_is_or h (i.size_high)]
  ring

/-- C7, witness: evaluation at `size_low = 5`, `size_high = 2`. -/
theorem inode_size_combines_always_witness :
    RawInode.size
        { type_perm := 0x8000, uid := 0, size_low := 5, gid := 0,
          hard_links := 1, sectors_count := 0,
          direct_pointer := List.replicate 12 0, indirect_pointer := 0,
          doubly_indirect := 0, triply_indirect := 0, size_high := 2 } =
      5 + 2 ^ 32 * 2 :=
  (inode_size_combines_always _ (by decide)).1

/-! ### The inode block resolver (`Inode::try_block`) -/

/-- `NonZero::new`: `None` iff the pointer value is 0 (a hole). -/
def nonZero (n : Nat) : Option Nat := if n = 0 then none else some n

/-- The `block_index` helper inside `try_block` (`src/fs/sync.rs`): slice
4 bytes at `(block, index*4)` and read them as a little-endian `u32`.
`(index * 4) as i32` is the truncating usize-to-i32 cast. -/
def block_index (ls : Nat) (data : List Nat) (block : Nat) (index : Nat)
    (log_block_size : Nat) : Except Error (Option Nat) :=
  let offset : Int := toI32 ((index * 4) % 2 ^ 32)
  let endO : Int := offset + 4
  let addr := Address.with_block_size ls block offset log_block_size
  let endA := Address.with_block_size ls block endO log_block_size
  match memSlice ls data addr endA with
  | .ok bytes => .ok (nonZero (readU32 bytes 0))
  | .error e => .error e

/-- `Inode::try_block` (`src/fs/sync.rs` / `src/fs/mod.rs`): resolve a
logical block index through the direct / singly / doubly / triply tables.
`sbLog` is the superblock's `log_block_size` field, so
`block_size = 1024 << sbLog`, `log_block_size = sbLog + 10` and
`bs4 = block_size / 4`, exactly as the accessors compute them. -/
def tryBlock (ls : Nat) (data : List Nat) (sbLog : Nat) (ino : RawInode)
    (index : Nat) : Except Error (Option Nat) :=
  let bs4 := (1024 <<< sbLog) / 4
  let log_block_size := sbLog + 10
  if index < 12 then .ok (nonZero (ino.direct_pointer.getD index 0))
  else
    let i1 := index - 12
    if i1 < bs4 then block_index ls data ino.indirect_pointer i1 log_block_size
    else
      let i2 := i1 - bs4
      if i2 < bs4 * bs4 then
        let indirect_index := i2 >>> (log_block_size + 2)
        match block_index ls data ino.doubly_indirect indirect_index
            log_block_size with
        | .ok (some b) =>
          block_index ls data b (i2 &&& (bs4 - 1)) log_block_size
        | .ok none => .ok none
        | .error e => .error e
      else
        let i3 := i2 - bs4 * bs4
        if i3 < bs4 * bs4 * bs4 then
          let doubly_index := i3 >>> (2 * log_block_size + 4)
          match block_index ls data ino.triply_indirect doubly_index
              log_block_size with
          | .ok (some b1) =>
            let indirect_index := (i3 >>> (log_block_size + 2)) &&& (bs4 - 1)
            match block_index ls data b1 indirect_index log_block_size with
            | .ok (some b2) =>
              block_index ls data b2 (i3 &&& (bs4 - 1)) log_block_size
            | .ok none => .ok none
            | .error e => .error e
          | .ok none => .ok none
          | .error e => .error e
        else .ok none

/-- A 4-KiB volume (block size 1024) exercising the doubly-indirect walk:
the doubly-indirect table is block 1, whose entry 0 points at block 2 and
entry 1 at block 3; block 2's entry 0 is 7 and block 3's entry 0 is 9. -/
def c1Volume : List Nat :=
  (((((List.replicate 4096 0).set 1024 2).set 1028 3).set 2048 7).set 3072 9)

/-- An inode whose `doubly_indirect` pointer is block 1 (all other
pointers are holes). -/
def c1Inode : RawInode :=
  { type_perm := 0x8000, uid := 0, size_low := 0, gid := 0, hard_links := 1,
    sectors_count := 0, direct_pointer := List.replicate 12 0,
    indirect_pointer := 0, doubly_indirect := 1, triply_indirect := 0,
    size_high := 1 }

set_option maxHeartbeats 4000000 in
/-- C1: evaluation at the failing input.  With block size 1024
(`n4 = 256`), the logical index 524 lies in the doubly-indirect region with
residual `r = 524 - 12 - 256 = 256`; the claim requires reading
doubly-table digit `r / 256 = 1` (entry 3, whose entry 0 is 9), but the
code shifts by `log_block_size + 2 = 12` instead of `log2(n4) = 8`,
reads digit `256 >> 12 = 0` and returns block 7 — the same physical block
the in-range index 268 (residual 0) resolves to. -/
theorem doubly_indirect_digit_eval :
    tryBlock 9 c1Volume 0 c1Inode 524 = .ok (some 7) ∧
      tryBlock 9 c1Volume 0 c1Inode 268 = .ok (some 7) ∧
      readU32 c1Volume (1024 + 4 * (256 / 256)) = 3 ∧
      readU32 c1Volume 3072 = 9 ∧
      (256 : Nat) >>> 12 = 0 ∧ (256 : Nat) / 256 = 1 := by
  refine ⟨by decide, by decide, by decide, by decide, by decide, by decide⟩

/-! ### The inode block stream and `Inode::read` -/

/-- One step of the `InodeBlocks` iterator (`src/fs/sync.rs`): resolve the
current index; a hole ends the stream (no index advance), a resolver error
is yielded without advancing, and on success the index advances before the
block slice is read (so a slice error still advances).  Returns the yielded
item together with the iterator's next `index`. -/
def inodeBlocksNext (ls : Nat) (data : List Nat) (sbLog : Nat)
    (ino : RawInode) (index : Nat) :
    Option (Except Error (List Nat × Address)) × Nat :=
  match tryBlock ls data sbLog ino index with
  | .error e => (some (.error e), index)
  | .ok none => (none, index)
  | .ok (some block) =>
    let log_block_size := sbLog + 10
    let offset := Address.with_block_size ls block 0 log_block_size
    let endA := Address.with_block_size ls (block + 1) 0 log_block_size
    match memSlice ls data offset endA with
    | .ok s => (some (.ok (s, offset)), index + 1)
    | .error e => (some (.error e), index + 1)

/-- `true` iff an `InodeBlocks` step yielded an `Ok` block. -/
def isOkBlock : Option (Except Error (List Nat × Address)) → Bool
  | some (.ok _) => true
  | _ => false

theorem inodeBlocksNext_ok_snd (ls : Nat) (data : List Nat) (sbLog : Nat)
    (ino : RawInode) (index : Nat) (v : List Nat × Address)
    (h : (inodeBlocksNext ls data sbLog ino index).1 = some (.ok v)) :
    (inodeBlocksNext ls data sbLog ino index).2 = index + 1 := by
  simp only [inodeBlocksNext] at h ⊢
  split
  next e heq => rw [heq] at h; simp at h
  next heq => rw [heq] at h; simp at h
  next block heq => split <;> rfl

/-- The `for block in self.blocks()` loop of `File::read for Inode`
(`src/fs/sync.rs`): each `Ok` block contributes
`min(block_size, min(total_size - offset, buf.len() - offset))` bytes, a
hole ends the loop returning the byte count, an error is returned as-is.
`fuel` bounds the number of iterations (the source loop has no bound; all
theorems quantify over sufficient fuel). -/
def readLoop (ls : Nat) (data : List Nat) (sbLog : Nat) (ino : RawInode)
    (bufLen : Nat) : Nat → Nat → Nat → Option (Except Error Nat)
  | 0, _, _ => none
  | fuel + 1, index, offset =>
    match inodeBlocksNext ls data sbLog ino index with
    | (none, _) => some (.ok offset)
    | (some (.error e), _) => some (.error e)
    | (some (.ok _), index2) =>
      let block_size := 1024 <<< sbLog
      let data_size :=
        min (min block_size (RawInode.size ino - offset)) (bufLen - offset)
      readLoop ls data sbLog ino bufLen fuel index2 (offset + data_size)

set_option maxHeartbeats 1000000 in
theorem readLoop_invariant (ls : Nat) (data : List Nat) (sbLog : Nat)
    (ino : RawInode) (bufLen m : Nat)
    (hblocks : ∀ i, i < m →
      isOkBlock (inodeBlocksNext ls data sbLog ino i).1 = true)
    (hend : (inodeBlocksNext ls data sbLog ino m).1 = none)
    (hbuf : RawInode.size ino ≤ bufLen)
    (hsupply : RawInode.size ino ≤ m * (1024 <<< sbLog)) :
    ∀ fuel i, i ≤ m → m - i < fuel →
      readLoop ls data sbLog ino bufLen fuel i
        (min (RawInode.size ino) (i * (1024 <<< sbLog))) =
        some (.ok (RawInode.size ino)) := by
  intro fuel
  induction fuel with
  | zero => intro i hi hf; omega
  | succ n ih =>
    intro i hi hf
    by_cases him : i = m
    · subst him
      rcases hP : inodeBlocksNext ls data sbLog ino i with ⟨res, idx⟩
      rw [hP] at hend
      simp only at hend
      subst hend
      simp only [readLoop, hP]
      rw [Nat.min_eq_left hsupply]
    · have hilt : i < m := by omega
      have hB := hblocks i hilt
      have hsnd := fun v => inodeBlocksNext_ok_snd ls data sbLog ino i v
      rcases hP : inodeBlocksNext ls data sbLog ino i with ⟨res, idx⟩
      rw [hP] at hB
      simp only at hB
      cases res with
      | none => simp [isOkBlock] at hB
      | some r =>
        cases r with
        | error e => simp [isOkBlock] at hB
        | ok v =>
          have hidx : idx = i + 1 := by
            have h2 := hsnd v (by rw [hP])
            rw [hP] at h2
            exact h2
          subst hidx
          simp only [readLoop, hP]
          have key : ∀ B X Y : Nat, Y = X + B →
              min (RawInode.size ino) X +
                min (min B (RawInode.size ino - min (RawInode.size ino) X))
                  (bufLen - min (RawInode.size ino) X) =
              min (RawInode.size ino) Y := by
            intro B X Y h1
            omega
          rw [key (1024 <<< sbLog) (i * (1024 <<< sbLog))
            ((i + 1) * (1024 <<< sbLog)) (by ring)]
          exact ih (i + 1) (by omega) (by omega)

/-- C2 (amended): if the first `m` logical blocks of the inode resolve and
slice successfully, the stream ends at index `m` (no hole before `m`), the
size fits the buffer, and those `m` blocks supply at least `size()` bytes,
then `inode.read(buf)` returns `Ok` with exactly `inode.size()` bytes
copied (for any sufficient iteration fuel). -/
theorem inode_read_full_size (ls : Nat) (data : List Nat) (sbLog : Nat)
    (ino : RawInode) (bufLen m : Nat)
    (hblocks : ∀ i, i < m →
      isOkBlock (inodeBlocksNext ls data sbLog ino i).1 = true)
    (hend : (inodeBlocksNext ls data sbLog ino m).1 = none)
    (hbuf : RawInode.size ino ≤ bufLen)
    (hsupply : RawInode.size ino ≤ m * (1024 <<< sbLog)) :
    ∀ fuel, m < fuel →
      readLoop ls data sbLog ino bufLen fuel 0 0 =
        some (.ok (RawInode.size ino)) := by
  intro fuel hf
  have h := readLoop_invariant ls data sbLog ino bufLen m hblocks hend hbuf
    hsupply fuel 0 (by omega) (by omega)
  simpa using h

/-- An in-use regular-file inode of size 100 whose pointers are all holes. -/
def c2SparseInode : RawInode :=
  { type_perm := 0x8000, uid := 0, size_low := 100, gid := 0, hard_links := 1,
    sectors_count := 0, direct_pointer := List.replicate 12 0,
    indirect_pointer := 0, doubly_indirect := 0, triply_indirect := 0,
    size_high := 0 }

/-- C2, counterexample to the unrestricted claim: a sparse in-use regular
file of size 100 with a buffer of 100 bytes reads `Ok(0)`, not `Ok(100)` —
the block stream ends at the first hole. -/
theorem inode_read_sparse_counterexample :
    0 < c2SparseInode.hard_links ∧
      c2SparseInode.type_perm &&& 0x8000 = 0x8000 ∧
      RawInode.size c2SparseInode = 100 ∧
      RawInode.size c2SparseInode ≤ 100 ∧
      readLoop 9 [] 0 c2SparseInode 100 1 0 0 = some (.ok 0) ∧
      (0 : Nat) ≠ 100 := by
  refine ⟨by decide, by decide, by decide, by decide, by decide, by decide⟩

/-- A 2-KiB volume and a 10-byte file stored in block 1. -/
def c2Volume : List Nat := List.replicate 2048 0

/-- The inode of that file: one direct pointer to block 1, size 10. -/
def c2Inode : RawInode :=
  { type_perm := 0x8000, uid := 0, size_low := 10, gid := 0, hard_links := 1,
    sectors_count := 0, direct_pointer := 1 :: List.replicate 11 0,
    indirect_pointer := 0, doubly_indirect := 0, triply_indirect := 0,
    size_high := 0 }

set_option maxHeartbeats 4000000 in
/-- C2, witness: the 10-byte file is read in full, `Ok(10)`. -/
theorem inode_read_full_size_witness :
    readLoop 9 c2Volume 0 c2Inode 10 2 0 0 =
      some (.ok (RawInode.size c2Inode)) := by
  have h := inode_read_full_size 9 c2Volume 0 c2Inode 10 1
    (by
      intro i hi
      have h0 : i = 0 := by omega
      subst h0
      decide)
    (by decide) (by decide) (by decide) 2 (by omega)
  exact h

/-! ### The directory walker -/

/-- `DirectoryEntry` (`src/fs/sync.rs`). -/
structure DirectoryEntry where
  name : List Nat
  inode : Nat
  ty : Nat
deriving Repr, DecidableEq

/-- The `Directory` iterator state: the `InodeBlocks` index, the cursor
`offset`, the cached block `buffer` and the filesystem `block_size`. -/
structure DirState where
  index : Nat
  offset : Nat
  buffer : Option (List Nat)
  block_size : Nat
deriving Repr, DecidableEq

/-- `type_perm.contains(TypePerm::DIRECTORY)` (bit 0x4000). -/
def RawInode.is_dir (i : RawInode) : Prop := i.type_perm &&& 0x4000 = 0x4000

instance (i : RawInode) : Decidable (i.is_dir) :=
  inferInstanceAs (Decidable (_ = _))

/-- `Inode::directory()`'s initial iterator state: fresh block stream,
cursor 0, no cached buffer, the filesystem's block size. -/
def dirStart (block_size : Nat) : DirState :=
  { index := 0, offset := 0, buffer := none, block_size := block_size }

/-- The decoding tail of `Directory::next` (`src/fs/sync.rs`): read the
entry at the cursor from the cached buffer (`&buffer[offset..]`), stop on a
zero inode field, otherwise yield the entry and advance the cursor by
`rec_len`.  The source's `buffer.as_ref().unwrap()` is modelled by `getD`
(`next` only reaches this point with a buffer present). -/
def dirDecode (st : DirState) : Option (Except Error DirectoryEntry) × DirState :=
  let buffer := (st.buffer.getD []).drop st.offset
  if readU32 buffer 0 = 0 then (none, st)
  else
    (some (.ok { name := (buffer.drop 8).take (byteAt buffer 6),
                 inode := readU32 buffer 0,
                 ty := byteAt buffer 7 }),
      { st with offset := st.offset + readU16 buffer 4 })

/-- `Directory::next` (`src/fs/sync.rs`): refill the buffer from the block
stream when absent or exhausted (ending on stream end, propagating stream
errors without advancing the cursor), then decode at the cursor. -/
def dirNext (ls : Nat) (data : List Nat) (sbLog : Nat) (ino : RawInode)
    (st : DirState) : Option (Except Error DirectoryEntry) × DirState :=
  if st.buffer = none ∨ st.block_size ≤ st.offset then
    match inodeBlocksNext ls data sbLog ino st.index with
    | (none, i2) => (none, { st with index := i2 })
    | (some (.error e), i2) => (some (.error e), { st with index := i2 })
    | (some (.ok (block, _)), i2) =>
      dirDecode { st with index := i2, offset := 0, buffer := some block }
  else
    dirDecode st

/-! ### Claims C8 and C10: directory iteration -/

/-- C8 (amended): `Directory::next` returns `None` exactly at the first
decoded entry whose inode field is 0 or when the block stream ends while
refilling, whichever comes first: (1) a cached in-range cursor whose
decoded inode field is 0 stops the iteration; (2) a needed refill that hits
the end of the block stream stops the iteration; (3) those are the only
ways it stops.  (The `name_len ≤ rec_len - 8` part of the original claim
is false: see the counterexample.) -/
theorem directory_termination (ls : Nat) (data : List Nat) (sbLog : Nat)
    (ino : RawInode) (st : DirState) :
    ((∀ b, st.buffer = some b → st.offset < st.block_size →
        readU32 (b.drop st.offset) 0 = 0 →
        (dirNext ls data sbLog ino st).1 = none)
    ∧ ((st.buffer = none ∨ st.block_size ≤ st.offset) →
        (inodeBlocksNext ls data sbLog ino st.index).1 = none →
        (dirNext ls data sbLog ino st).1 = none)
    ∧ ((dirNext ls data sbLog ino st).1 = none →
        (∃ b, st.buffer = some b ∧ st.offset < st.block_size ∧
          readU32 (b.drop st.offset) 0 = 0)
        ∨ ((st.buffer = none ∨ st.block_size ≤ st.offset) ∧
          ((inodeBlocksNext ls data sbLog ino st.index).1 = none
           ∨ ∃ blk a,
              (inodeBlocksNext ls data sbLog ino st.index).1 =
                some (.ok (blk, a)) ∧ readU32 blk 0 = 0)))) := by
  by_cases hc : st.buffer = none ∨ st.block_size ≤ st.offset
  · refine ⟨?_, ?_, ?_⟩
    · intro b hb hoff _
      rcases hc with h1 | h1
      · rw [hb] at h1
        exact Option.noConfusion h1
      · omega
    · intro _ hstream
      simp only [dirNext, if_pos hc]
      rcases hP : inodeBlocksNext ls data sbLog ino st.index with ⟨res, i2⟩
      rw [hP] at hstream
      simp only at hstream
      subst hstream
      rfl
    · intro hnone
      simp only [dirNext, if_pos hc] at hnone
      rcases hP : inodeBlocksNext ls data sbLog ino st.index with ⟨res, i2⟩
      rw [hP] at hnone
      right
      refine ⟨hc, ?_⟩
      cases res with
      | none =>
        left
        rfl
      | some r =>
        cases r with
        | error e => simp at hnone
        | ok v =>
          obtain ⟨blk, a⟩ := v
          right
          refine ⟨blk, a, rfl, ?_⟩
          simp only [dirDecode, Option.getD_some, List.drop_zero] at hnone
          by_cases h0 : readU32 blk 0 = 0
          · exact h0
          · rw [if_neg h0] at hnone
            simp at hnone
  · have hoff : st.offset < st.block_size := by
      by_contra hh
      exact hc (Or.inr (by omega))
    obtain ⟨b, hbuf⟩ : ∃ b, st.buffer = some b := by
      cases h : st.buffer with
      | none => exact absurd (Or.inl h) hc
      | some b => exact ⟨b, rfl⟩
    refine ⟨?_, ?_, ?_⟩
    · intro b' hb' _ h0
      rw [hbuf] at hb'
      injection hb' with hb2
      subst hb2
      simp only [dirNext, dirDecode, hbuf, Option.getD_some]
      rw [if_neg (show ¬(some b = none ∨ st.block_size ≤ st.offset) by
        push_neg
        exact ⟨by simp, by omega⟩)]
      rw [if_pos h0]
    · intro hcond _
      exact absurd hcond hc
    · intro hnone
      left
      refine ⟨b, hbuf, hoff, ?_⟩
      simp only [dirNext, dirDecode, hbuf, Option.getD_some] at hnone
      by_cases h0 : readU32 (b.drop st.offset) 0 = 0
      · exact h0
      · rw [if_neg h0] at hnone
        rw [if_neg (show ¬(some b = none ∨ st.block_size ≤ st.offset) by
          push_neg
          exact ⟨by simp, by omega⟩)] at hnone
        simp at hnone

/-- An empty inode used in concrete directory states. -/
def c8Inode : RawInode :=
  { type_perm := 0x4000, uid := 0, size_low := 0, gid := 0, hard_links := 1,
    sectors_count := 0, direct_pointer := List.replicate 12 0,
    indirect_pointer := 0, doubly_indirect := 0, triply_indirect := 0,
    size_high := 0 }

/-- C8, witness: a cached buffer whose entry at the cursor has inode field
0 stops the iteration. -/
theorem directory_termination_witness :
    (dirNext 9 [] 0 c8Inode
      { index := 0, offset := 0, buffer := some [0, 0, 0, 0],
        block_size := 1024 }).1 = none :=
  (directory_termination 9 [] 0 c8Inode
    { index := 0, offset := 0, buffer := some [0, 0, 0, 0],
      block_size := 1024 }).1
    [0, 0, 0, 0] rfl (by decide) (by decide)

/-- A 2-KiB directory volume: block 1 holds one entry with inode 1,
`rec_len = 9`, `name_len = 5`, type 2, name "ABCDE" (then a 0-inode
terminator). -/
def c8Volume : List Nat :=
  ((((((((List.replicate 2048 0).set 1024 1).set 1028 9).set 1030 5).set
    1031 2).set 1032 65).set 1033 66).set 1034 67).set 1035 68 |>.set 1036 69

/-- The directory inode of `c8Volume`: one direct pointer to block 1. -/
def c8DirInode : RawInode :=
  { type_perm := 0x4000, uid := 0, size_low := 1024, gid := 0, hard_links := 1,
    sectors_count := 0, direct_pointer := 1 :: List.replicate 11 0,
    indirect_pointer := 0, doubly_indirect := 0, triply_indirect := 0,
    size_high := 0 }

set_option maxHeartbeats 4000000 in
/-- C8, counterexample to the `name_len ≤ rec_len - 8` part: the decoder
yields the crafted entry (reading its 5-byte name) even though its
`name_len = 5` exceeds `rec_len - 8 = 1`; no validation is performed. -/
theorem directory_name_len_counterexample :
    c8DirInode.is_dir ∧
      (dirNext 9 c8Volume 0 c8DirInode (dirStart 1024)).1 =
        some (.ok { name := [65, 66, 67, 68, 69], inode := 1, ty := 2 }) ∧
      byteAt (extractBytes c8Volume 1024 2048) 6 = 5 ∧
      readU16 (extractBytes c8Volume 1024 2048) 4 = 9 ∧
      ¬((5 : Nat) ≤ 9 - 8) := by
  refine ⟨by decide, by decide, by decide, by decide, by decide⟩

/-- C10: an in-range cursor whose entry has a nonzero inode field and
`rec_len = 0` is a fixpoint of `Directory::next`: the same entry is
yielded and the state (cursor, buffer, block index) is unchanged, so every
subsequent call yields that same entry and the iteration never
terminates. -/
theorem directory_rec_len_zero_fixpoint (ls : Nat) (data : List Nat)
    (sbLog : Nat) (ino : RawInode) (st : DirState) (b : List Nat)
    (hbuf : st.buffer = some b) (hoff : st.offset < st.block_size)
    (hino : readU32 (b.drop st.offset) 0 ≠ 0)
    (hrec : readU16 (b.drop st.offset) 4 = 0) :
    dirNext ls data sbLog ino st =
      (some (.ok { name := ((b.drop st.offset).drop 8).take
                     (byteAt (b.drop st.offset) 6),
                   inode := readU32 (b.drop st.offset) 0,
                   ty := byteAt (b.drop st.offset) 7 }), st) := by
  simp only [dirNext, dirDecode, hbuf, Option.getD_some]
  rw [if_neg (show ¬(some b = none ∨ st.block_size ≤ st.offset) by
    push_neg
    exact ⟨by simp, by omega⟩)]
  rw [if_neg hino, hrec]
  congr 1
  rw [← hbuf]
  cases st
  simp

/-- C10, witness: a buffer holding `inode = 1`, `rec_len = 0`,
`name_len = 0`, type 5 at cursor 0 loops: the state is returned unchanged
and the entry is yielded. -/
theorem directory_rec_len_zero_fixpoint_witness :
    (dirNext 9 [] 0 c8Inode
        { index := 0, offset := 0, buffer := some [1, 0, 0, 0, 0, 0, 0, 5],
          block_size := 1024 }).2 =
      { index := 0, offset := 0, buffer := some [1, 0, 0, 0, 0, 0, 0, 5],
        block_size := 1024 } ∧
    ((dirNext 9 [] 0 c8Inode
        { index := 0, offset := 0, buffer := some [1, 0, 0, 0, 0, 0, 0, 5],
          block_size := 1024 }).1).isSome = true := by
  rw [directory_rec_len_zero_fixpoint 9 [] 0 c8Inode
    { index := 0, offset := 0, buffer := some [1, 0, 0, 0, 0, 0, 0, 5],
      block_size := 1024 }
    ([1, 0, 0, 0, 0, 0, 0, 5]) rfl (by decide) (by decide) (by decide)]
  exact ⟨rfl, rfl⟩

/-! ### Claim C9: the inode iterator -/

/-- The `Inodes` iterator state (`src/fs/sync.rs`): the cached filesystem
parameters and the running 1-based `index`. -/
structure InodesState where
  log_block_size : Nat
  inode_size : Nat
  inodes_per_group : Nat
  inodes_count : Nat
  index : Nat
deriving Repr, DecidableEq

/-- `Synced::inodes_nth(index)` (`src/fs/sync.rs`): build the iterator state
from the cached filesystem parameters; the source fills `inodes_per_group`
from `Ext2::inodes_count` and `inodes_count` from
`Ext2::total_inodes_count`. -/
def Ext2.inodes_nth (fs : Ext2) (index : Nat) : InodesState :=
  { log_block_size := fs.log_block_size
    inode_size := fs.inode_size
    inodes_per_group := fs.inodes_count
    inodes_count := fs.total_inodes_count
    index := index }

/-- `Iterator::next` for `Inodes` (`src/fs/sync.rs`): while
`index < inodes_count`, locate inode `index` inside its block group's inode
table, advance `index`, and yield `(raw, offset, index)`; a `find_inode`
error is converted to `None` by the source's `.ok()`.  The `i32` cast of
`index * inode_size` is the wrap-then-sign-read of the embedding. -/
def inodesNext (ls : Nat) (fs : Ext2) (st : InodesState) :
    Option (RawInode × Address × Nat) × InodesState :=
  if st.index < st.inodes_count then
    let block_group := (st.index - 1) / st.inodes_per_group
    let index := (st.index - 1) % st.inodes_per_group
    let inodes_block :=
      (fs.block_groups.getD block_group default).inode_table_block
    let offset := Address.with_block_size ls inodes_block
      (toI32 ((index * st.inode_size) % 2 ^ 32)) st.log_block_size
    (match find_inode ls fs.volume offset st.inode_size with
      | .error _ => none
      | .ok (r, o) => some (r, o, st.index),
      { st with index := st.index + 1 })
  else
    (none, st)

/-- `Inodes` as consumed by a `for` loop: collect the yielded inodes until
`next` returns `None` (bounded by `fuel`). -/
def inodesRun (ls : Nat) (fs : Ext2) : Nat → InodesState →
    List (RawInode × Address × Nat)
  | 0, _ => []
  | fuel + 1, st =>
    match inodesNext ls fs st with
    | (none, _) => []
    | (some item, st2) => item :: inodesRun ls fs fuel st2

/-- `Synced::inode_nth(index)`: the first item of `inodes_nth(index)`. -/
def Ext2.inode_nth (ls : Nat) (fs : Ext2) (index : Nat) :
    Option (RawInode × Address × Nat) :=
  (inodesNext ls fs (fs.inodes_nth index)).1

/-- A yielded inode carries the pre-increment `index` as its number, the
guard `index < inodes_count` held, and the state advanced by one. -/
theorem inodesNext_yield (ls : Nat) (fs : Ext2) (st : InodesState)
    (r : RawInode × Address × Nat) (h : (inodesNext ls fs st).1 = some r) :
    r.2.2 = st.index ∧ st.index < st.inodes_count ∧
      (inodesNext ls fs st).2 = { st with index := st.index + 1 } := by
  by_cases hg : st.index < st.inodes_count
  · refine ⟨?_, hg, by simp only [inodesNext, if_pos hg]⟩
    simp only [inodesNext, if_pos hg] at h
    split at h
    · exact absurd h (by simp)
    · next r0 o heq =>
      injection h with h2
      rw [← h2]
  · simp only [inodesNext, if_neg hg] at h
    exact absurd h (by simp)

/-- The iterator yields at most `inodes_count - index` items. -/
theorem inodesRun_length_le (ls : Nat) (fs : Ext2) :
    ∀ fuel st, (inodesRun ls fs fuel st).length ≤ st.inodes_count - st.index := by
  intro fuel
  induction fuel with
  | zero =>
    intro st
    simp [inodesRun]
  | succ n ih =>
    intro st
    simp only [inodesRun]
    rcases hN : inodesNext ls fs st with ⟨res, st2⟩
    cases res with
    | none => simp
    | some item =>
      have hs := inodesNext_yield ls fs st item (by rw [hN])
      have hst2 : st2 = { st with index := st.index + 1 } := by
        have h2 := hs.2.2
        rw [hN] at h2
        exact h2
      subst hst2
      have h2 := ih { st with index := st.index + 1 }
      have h1 := hs.2.1
      simp only [List.length_cons]
      simp at h2
      omega

/-- C9: the inode iterator yields only while the 1-based `index` is
strictly below the superblock's total `inodes_count`: at
`index ≥ inodes_count` it returns `None` with the state unchanged; every
yielded inode's number is strictly below `inodes_count` (so the inode
numbered `inodes_count`, a valid 1-based number, is never yielded);
`inode_nth(inodes_count)` is `None`; and `inodes()` (which starts at
index 1) yields at most `inodes_count - 1` inodes. -/
theorem inodes_iterator_upper_bound (ls : Nat) (fs : Ext2) (st : InodesState)
    (fuel : Nat) :
    (st.inodes_count ≤ st.index → inodesNext ls fs st = (none, st))
    ∧ (∀ r, (inodesNext ls fs st).1 = some r → r.2.2 < st.inodes_count)
    ∧ Ext2.inode_nth ls fs fs.total_inodes_count = none
    ∧ (inodesRun ls fs fuel (fs.inodes_nth 1)).length ≤
        fs.total_inodes_count - 1 := by
  refine ⟨?_, ?_, ?_, ?_⟩
  · intro h
    simp only [inodesNext, if_neg (by omega : ¬ st.index < st.inodes_count)]
  · intro r hr
    have hs := inodesNext_yield ls fs st r hr
    omega
  · have hg : ¬ (fs.inodes_nth fs.total_inodes_count).index <
        (fs.inodes_nth fs.total_inodes_count).inodes_count := by
      simp [Ext2.inodes_nth]
    simp only [Ext2.inode_nth, inodesNext, if_neg hg]
  · have h := inodesRun_length_le ls fs fuel (fs.inodes_nth 1)
    simpa [Ext2.inodes_nth] using h

/-- A 4-inode superblock for the C9 witness. -/
def c9Sb : Superblock :=
  { inodes_count := 4, blocks_count := 8, free_blocks_count := 0,
    first_data_block := 1, log_block_size := 0, blocks_per_group := 8,
    inodes_per_group := 4, magic := 0xEF53, rev_minor := 0, rev_major := 0,
    inode_size := 128, features_ronly := 0 }

/-- A literal filesystem with `total_inodes_count = 4` for the C9 witness. -/
def c9Fs : Ext2 :=
  { volume := [], superblock := c9Sb,
    superblock_offset := Address.ofIndex 9 1024,
    block_groups := [], block_groups_offset := Address.ofIndex 9 2048 }

/-- C9, witness: on a filesystem with 4 inodes the iterator positioned at
index 4 (= `inodes_count`) yields nothing and leaves the state unchanged. -/
theorem inodes_iterator_upper_bound_witness :
    inodesNext 9 c9Fs (c9Fs.inodes_nth 4) = (none, c9Fs.inodes_nth 4) :=
  (inodes_iterator_upper_bound 9 c9Fs (c9Fs.inodes_nth 4) 10).1 (by decide)
